import Mathlib

/-!
Shallow embedding of the clitic-features engine of `clitics/cliticfeats.py`
(block `CliticFeats`), which analyzes Czech dependency-parsed sentences to
characterize occurrences of the clitic *se*.

Nodes of the dependency tree are modelled as records carrying the attributes
the engine reads (`form`, `upos`, `deprel`, `ord`, `is_root`, `parent`,
`children`); a sentence is a list of such nodes together with its `sent_id`
and surface text.  Python compares nodes by object identity; the embedding
mirrors this by comparing the `id` field.  The `while True` climbs of the
source are embedded as fuel-based recursions returning `Option`: `none`
means the fuel ran out, and fuel sufficiency is proved separately, so the
top-level functions agree with the unbounded Python loops.
-/

structure Node where
  id : Nat
  form : String
  upos : String
  deprel : String
  ord : Nat
  isRoot : Bool := false
  parentId : Option Nat := none
  childIds : List Nat := []
deriving DecidableEq, Repr

structure Sent where
  sent_id : String := ""
  text : String := ""
  nodes : List Node := []
deriving Repr

/-- Look a node up by its identity. -/
def Sent.node? (s : Sent) (i : Nat) : Option Node :=
  s.nodes.find? (fun n => n.id == i)

/-- `node.parent` of the source: follow the parent link, `none` when absent. -/
def Sent.parentOf (s : Sent) (n : Node) : Option Node :=
  match n.parentId with
  | none => none
  | some i => s.node? i

/-- `node.children` of the source. -/
def Sent.childrenOf (s : Sent) (n : Node) : List Node :=
  n.childIds.filterMap s.node?

/-- `form.lower()` of the source (over the character list, so it evaluates). -/
def lowerStr (s : String) : String := ⟨s.data.map Char.toLower⟩

/-- `node.deprel.split(":")[0] if node.deprel else ""` of the source: the
prefix of the relation label before the first colon. -/
def baseDeprel (d : String) : String :=
  if d = "" then "" else ⟨d.data.takeWhile (fun c => c ≠ ':')⟩

/-- `_SUBORDINATING_DEPRELS` of the source. -/
def subordinatingDeprels : List String := ["ccomp", "advcl", "acl", "csubj"]

/-- `_CLITIC_GROUP_FORMS` of the source. -/
def cliticGroupForms : List String := ["se", "mu", "ho", "bych", "jsem"]

/-- Fuel that is always sufficient for the visited-set guarded climbs: each
step adds a fresh node of the sentence to the visited set. -/
def stdFuel (s : Sent) : Nat := s.nodes.length + 2

/-- The ordering key `lambda n: n.ord` used by every `sort` in the source. -/
def ordLE (a b : Node) : Prop := a.ord ≤ b.ord

instance : DecidableRel ordLE := fun a b => inferInstanceAs (Decidable (a.ord ≤ b.ord))

instance : IsTotal Node ordLE := ⟨fun a b => Nat.le_total a.ord b.ord⟩

instance : IsTrans Node ordLE := ⟨fun _ _ _ => Nat.le_trans⟩

/-- `sorted(..., key=lambda n: n.ord)` / `parts.sort(key=lambda n: n.ord)`. -/
def sortByOrd (l : List Node) : List Node := List.insertionSort ordLE l

namespace CliticFeats

/-- The `aux`/`cop` children collected next to each complex-predicate member
(`for child in X.children: if base in ("aux", "cop"): parts.append(child)`). -/
def auxCopChildren (s : Sent) (n : Node) : List Node :=
  (s.childrenOf n).filter
    (fun c => baseDeprel c.deprel == "aux" || baseDeprel c.deprel == "cop")

/-- The `xcomp`-climbing `while True` loop shared verbatim by
`_predicate_form` and `_predicate_nodes` in the source: starting from `node`
with the current `visited` id set and accumulated `parts`, climb to the
parent while the current node's base relation is `xcomp` and the parent is a
real, unvisited node, adding each head and its `aux`/`cop` children. -/
def partsLoop (s : Sent) : Nat → List Nat → List Node → Node → Option (List Node)
  | 0, _, _, _ => none
  | fuel + 1, visited, parts, node =>
    if baseDeprel node.deprel ≠ "xcomp" then some parts
    else
      match s.parentOf node with
      | none => some parts
      | some head =>
        if head.isRoot then some parts
        else if visited.contains head.id then some parts
        else partsLoop s fuel (head.id :: visited) (parts ++ head :: auxCopChildren s head) head

/-- The unsorted member list of the complex predicate: the governor, its
`aux`/`cop` children, and the climbed `xcomp` chain with theirs. -/
def predicateParts (s : Sent) (p : Node) : Option (List Node) :=
  partsLoop s (stdFuel s) [p.id] (p :: auxCopChildren s p) p

/-- `CliticFeats._predicate_form`. -/
def predicate_form (s : Sent) : Option Node → String
  | none => "_"
  | some p =>
    if p.isRoot then "_"
    else
      match predicateParts s p with
      | none => "_"
      | some parts => String.intercalate " " ((sortByOrd parts).map (fun n => n.form))

/-- `CliticFeats._predicate_nodes` (its climb is textually identical to the
one of `_predicate_form`; it returns the sorted member nodes). -/
def predicate_nodes (s : Sent) : Option Node → List Node
  | none => []
  | some p =>
    if p.isRoot then []
    else
      match predicateParts s p with
      | none => []
      | some parts => sortByOrd parts

/-- The upward `while True` walk of `CliticFeats._clause_type`. -/
def clauseTypeLoop (s : Sent) : Nat → List Nat → Node → Option String
  | 0, _, _ => none
  | fuel + 1, visited, node =>
    if visited.contains node.id then some "HV"
    else
      let base := baseDeprel node.deprel
      if base = "root" then some "HV"
      else if subordinatingDeprels.contains base then some "VV"
      else
        match s.parentOf node with
        | none => some "HV"
        | some p => if p.isRoot then some "HV" else clauseTypeLoop s fuel (node.id :: visited) p

/-- `CliticFeats._clause_type`. -/
def clause_type (s : Sent) : Option Node → String
  | none => "_"
  | some p => if p.isRoot then "_" else (clauseTypeLoop s (stdFuel s) [] p).getD "_"

/-- The upward walk of `CliticFeats._clause_root`: return the first node
whose upward relation is not `xcomp`; on a revisit or a root node fall back
to the predicate itself. -/
def clauseRootLoop (s : Sent) (pred : Node) : Nat → List Nat → Node → Option Node
  | 0, _, _ => none
  | fuel + 1, visited, node =>
    if node.isRoot then some pred
    else if visited.contains node.id then some pred
    else if baseDeprel node.deprel ≠ "xcomp" then some node
    else
      match s.parentOf node with
      | none => some node
      | some p => if p.isRoot then some node else clauseRootLoop s pred fuel (node.id :: visited) p

/-- `CliticFeats._clause_root`. -/
def clause_root (s : Sent) : Option Node → Option Node
  | none => none
  | some p => if p.isRoot then none else clauseRootLoop s p (stdFuel s) [] p

/-- The explicit stack/seen loop of `CliticFeats._collect_subtree_nodes`.
The Python list is used as a stack popped from its end after extending with
the reversed child list, so the next node popped is the first child; the
embedding keeps the stack top at the head. -/
def collectLoop (s : Sent) : Nat → List Node → List Nat → List Node → Option (List Node)
  | 0, _, _, _ => none
  | _ + 1, [], _, acc => some acc
  | fuel + 1, n :: stack, seen, acc =>
    if seen.contains n.id then collectLoop s fuel stack seen acc
    else collectLoop s fuel (s.childrenOf n ++ stack) (n.id :: seen) (acc ++ [n])

/-- Total number of child links of the sentence, bounding the stack growth
of a single visit. -/
def childWeight (s : Sent) : Nat := (s.nodes.map (fun n => n.childIds.length)).sum

/-- Fuel sufficient for `collectLoop` started on `[root]`. -/
def subtreeFuel (s : Sent) (root : Node) : Nat :=
  s.nodes.length * (childWeight s + 1) + root.childIds.length + 2

/-- `CliticFeats._collect_subtree_nodes`. -/
def collect_subtree_nodes (s : Sent) (root : Node) : List Node :=
  (collectLoop s (subtreeFuel s root) [root] [] []).getD []

/-- `CliticFeats._clause_nodes`. -/
def clause_nodes (s : Sent) (pred : Option Node) : List Node :=
  match clause_root s pred with
  | none => []
  | some r => if r.isRoot then [] else sortByOrd (collect_subtree_nodes s r)

/-- `CliticFeats._is_group_clitic` (the `node is None` guard of the source
cannot arise here: it is only ever applied to members of a node list). -/
def is_group_clitic (n : Node) : Bool :=
  let form := lowerStr n.form
  if !(cliticGroupForms.contains form) then false
  else if form == "se" && n.upos == "ADP" then false
  else true

/-- `while start > 0 and _is_group_clitic(non_punct[start - 1]): start -= 1`. -/
def expandLeft (np : List Node) : Nat → Nat
  | 0 => 0
  | start + 1 =>
    match np[start]? with
    | some m => if is_group_clitic m then expandLeft np start else start + 1
    | none => start + 1

/-- `while end + 1 < len(non_punct) and _is_group_clitic(non_punct[end + 1]):
end += 1` (fuel-driven; `np.length` steps always suffice). -/
def expandRight (np : List Node) : Nat → Nat → Nat
  | 0, e => e
  | fuel + 1, e =>
    match np[e + 1]? with
    | some m => if is_group_clitic m then expandRight np fuel (e + 1) else e
    | none => e

/-- `CliticFeats._clitic_group` (the `node is None` guard of the source
cannot arise: `process_node` always passes the current node). -/
def clitic_group (s : Sent) (node : Node) (pred : Option Node) : List Node :=
  let cn := clause_nodes s pred
  if cn.isEmpty then [node]
  else
    let np := cn.filter (fun n => n.upos != "PUNCT")
    match np.findIdx? (fun n => n.id == node.id) with
    | none => [node]
    | some idx =>
      let start := expandLeft np idx
      let stop := expandRight np np.length idx
      (np.drop start).take (stop + 1 - start)

/-- A clause unit: either the collapsed clitic-group placeholder
(`"__CLITIC_GROUP__"` in the source) or an ordinary node. -/
inductive CUnit where
  | group : CUnit
  | node : Node → CUnit
deriving DecidableEq, Repr

/-- The unit-building scan of `CliticFeats._clause_units`: each maximal run
of group members collapses into one placeholder recorded at its first
occurrence; later group members are skipped (the inner skipping `while` of
the source is subsumed by the membership branch, which skips group members
one at a time to the same effect). -/
def clauseUnitsLoop (groupIds : List Nat) : List Node → List CUnit → Option Nat → List CUnit × Option Nat
  | [], units, gidx => (units, gidx)
  | n :: rest, units, gidx =>
    if groupIds.contains n.id then
      match gidx with
      | none => clauseUnitsLoop groupIds rest (units ++ [CUnit.group]) (some units.length)
      | some g => clauseUnitsLoop groupIds rest units (some g)
    else
      clauseUnitsLoop groupIds rest (units ++ [CUnit.node n]) gidx

/-- `CliticFeats._clause_units`. -/
def clause_units (clauseNodes : List Node) (cliticGroup : List Node) : List CUnit × Option Nat :=
  let nonPunct := clauseNodes.filter (fun n => n.upos != "PUNCT")
  let groupIds := cliticGroup.map (fun n => n.id)
  clauseUnitsLoop groupIds nonPunct [] none

/-- `units[i] == predicate` of the source (`False` when the unit is the
placeholder string or the predicate is `None`). -/
def unitAtIs (units : List CUnit) (i : Nat) (pred : Option Node) : Bool :=
  match units[i]?, pred with
  | some (CUnit.node n), some p => n.id == p.id
  | _, _ => false

/-- `CliticFeats._clause_position`. -/
def clause_position (s : Sent) (pred : Option Node) (group : List Node) : String :=
  let up := clause_units (clause_nodes s pred) group
  match up.2 with
  | none => "_"
  | some gidx =>
    if gidx = 0 then "iniciální"
    else if gidx = 1 then "postiniciální"
    else if gidx = up.1.length - 1 ∧ 0 < gidx ∧ unitAtIs up.1 (gidx - 1) pred then "finální"
    else if gidx = up.1.length - 2 ∧ gidx + 1 < up.1.length ∧ unitAtIs up.1 (gidx + 1) pred then
      "prefinální"
    else "mediální"

/-- `predicate in units` / `units.index(predicate)` matcher of the source. -/
def unit_is_node (p : Node) : CUnit → Bool
  | CUnit.node n => n.id == p.id
  | CUnit.group => false

/-- `left in complex_predicate` of the source (`False` for `None` and for
the placeholder). -/
def unitInIds (ids : List Nat) : Option CUnit → Bool
  | some (CUnit.node n) => ids.contains n.id
  | _ => false

/-- `CliticFeats._relation_to_regent`. -/
def relation_to_regent (s : Sent) (pred : Option Node) (group : List Node) : String :=
  let up := clause_units (clause_nodes s pred) group
  match up.2, pred with
  | some gidx, some p =>
    match up.1.findIdx? (unit_is_node p) with
    | none => "_"
    | some pidx =>
      if gidx + 1 = pidx then "kontaktní preverbální"
      else if gidx = pidx + 1 then "kontaktní postverbální"
      else
        let cpIds := (predicate_nodes s (some p)).map (fun n => n.id)
        let left : Option CUnit := if 0 < gidx then up.1[gidx - 1]? else none
        let right : Option CUnit := up.1[gidx + 1]?
        if unitInIds cpIds left ∧ unitInIds cpIds right then "kontaktní interverbální"
        else if gidx < pidx then "izolovaná"
        else "jiné"
  | _, _ => "_"

/-- The TSV data row printed by `CliticFeats.process_node`. -/
def dataLine (s : Sent) (node : Node) : String :=
  let predicate := s.parentOf node
  let group := clitic_group s node predicate
  s.sent_id ++ "\t" ++ toString node.ord ++ "\t" ++ predicate_form s predicate ++ "\t" ++
    clause_type s predicate ++ "\t" ++ clause_position s predicate group ++ "\t" ++
    relation_to_regent s predicate group

/-- `CliticFeats.process_node`: the lines printed for one node (the data row
followed by the full surface sentence), or nothing when the node is skipped. -/
def process_node (s : Sent) (node : Node) : List String :=
  if lowerStr node.form != "se" || node.upos == "ADP" then []
  else [dataLine s node, s.text]

end CliticFeats

/-! ## Statement-side definitions -/

/-- The clause-position decision table exactly as the specification words it:
return the placeholder when the group does not appear among the units;
otherwise, first match wins: index 0, index 1, group is the last unit with
the predicate immediately before it, group is the second-to-last unit with
the predicate immediately after it, otherwise medial. -/
def specClausePosition (units : List CliticFeats.CUnit) (gidx? : Option Nat)
    (pred : Option Node) : String :=
  match gidx? with
  | none => "_"
  | some gidx =>
    if gidx = 0 then "iniciální"
    else if gidx = 1 then "postiniciální"
    else if gidx + 1 = units.length ∧ CliticFeats.unitAtIs units (gidx - 1) pred then "finální"
    else if gidx + 2 = units.length ∧ CliticFeats.unitAtIs units (gidx + 1) pred then
      "prefinální"
    else "mediální"

/-- Closure of the parent link starting at `a`: every node the upward walk
of `_clause_type` could possibly visit is in this relation. -/
inductive ClimbsTo (s : Sent) (a : Node) : Node → Prop
  | refl : ClimbsTo s a a
  | step {b c : Node} : ClimbsTo s a b → s.parentOf b = some c → ClimbsTo s a c

/-! ## Concrete sentences used to instantiate the theorems -/

namespace Fix

/- Sentence A: "On se jsem četl." with the verb governing a subject and the
clitic cluster "se jsem". -/

def rootA : Node :=
  { id := 0, form := "<root>", upos := "X", deprel := "", ord := 0
    isRoot := true, childIds := [1] }

def predA : Node :=
  { id := 1, form := "cetl", upos := "VERB", deprel := "root", ord := 4
    parentId := some 0, childIds := [2, 3, 4] }

def subjA : Node :=
  { id := 2, form := "on", upos := "PRON", deprel := "nsubj", ord := 1
    parentId := some 1 }

def seA : Node :=
  { id := 3, form := "se", upos := "PRON", deprel := "expl:pv", ord := 2
    parentId := some 1 }

def jsemA : Node :=
  { id := 4, form := "jsem", upos := "AUX", deprel := "aux", ord := 3
    parentId := some 1 }

def sentA : Sent :=
  { sent_id := "a1", text := "On se jsem cetl.", nodes := [rootA, predA, subjA, seA, jsemA] }

/- Sentence B: a lone "si" token (and an "se" token tagged ADP), the skipped
inputs of `process_node`. -/

def siB : Node :=
  { id := 1, form := "si", upos := "PRON", deprel := "expl:pv", ord := 1 }

def seAdpB : Node :=
  { id := 2, form := "se", upos := "ADP", deprel := "case", ord := 2 }

def sentB : Sent := { sent_id := "b1", text := "si se", nodes := [siB, seAdpB] }

/- Sentence C: "Cetl se, ho slovo mu" — a punctuation token inside the
clitic cluster and a content word breaking it. -/

def rootC : Node :=
  { id := 0, form := "<root>", upos := "X", deprel := "", ord := 0
    isRoot := true, childIds := [1] }

def predC : Node :=
  { id := 1, form := "cetl", upos := "VERB", deprel := "root", ord := 1
    parentId := some 0, childIds := [2, 3, 4, 5, 6] }

def seC : Node :=
  { id := 2, form := "se", upos := "PRON", deprel := "expl:pv", ord := 2
    parentId := some 1 }

def commaC : Node :=
  { id := 3, form := ",", upos := "PUNCT", deprel := "punct", ord := 3
    parentId := some 1 }

def hoC : Node :=
  { id := 4, form := "ho", upos := "PRON", deprel := "obj", ord := 4
    parentId := some 1 }

def slovoC : Node :=
  { id := 5, form := "slovo", upos := "NOUN", deprel := "obl", ord := 5
    parentId := some 1 }

def muC : Node :=
  { id := 6, form := "mu", upos := "PRON", deprel := "iobj", ord := 6
    parentId := some 1 }

def sentC : Sent :=
  { sent_id := "c1", text := "Cetl se, ho slovo mu"
    nodes := [rootC, predC, seC, commaC, hoC, slovoC, muC] }

/- Sentence D: a three-verb xcomp chain "On musel zacit by opirat se" with an
auxiliary on the middle verb; nodes listed in ord order. -/

def rootD : Node :=
  { id := 0, form := "<root>", upos := "X", deprel := "", ord := 0
    isRoot := true, childIds := [1] }

def subjD : Node :=
  { id := 5, form := "on", upos := "PRON", deprel := "nsubj", ord := 1
    parentId := some 1 }

def v1D : Node :=
  { id := 1, form := "musel", upos := "VERB", deprel := "root", ord := 2
    parentId := some 0, childIds := [2, 5] }

def v2D : Node :=
  { id := 2, form := "zacit", upos := "VERB", deprel := "xcomp", ord := 3
    parentId := some 1, childIds := [3, 4] }

def auxD : Node :=
  { id := 4, form := "by", upos := "AUX", deprel := "aux", ord := 4
    parentId := some 2 }

def v3D : Node :=
  { id := 3, form := "opirat", upos := "VERB", deprel := "xcomp", ord := 5
    parentId := some 2, childIds := [6] }

def seD : Node :=
  { id := 6, form := "se", upos := "PRON", deprel := "expl:pv", ord := 6
    parentId := some 3 }

def sentD : Sent :=
  { sent_id := "d1", text := "On musel zacit by opirat se."
    nodes := [rootD, subjD, v1D, v2D, auxD, v3D, seD] }

/-- A rank strictly increasing along every parent link of sentence D. -/
def rankD : Nat → Nat := fun i => 10 - i

/- Sentence E: two non-root nodes whose parent links form a 2-cycle. -/

def aE : Node :=
  { id := 1, form := "a", upos := "VERB", deprel := "conj", ord := 1
    parentId := some 2 }

def bE : Node :=
  { id := 2, form := "b", upos := "VERB", deprel := "conj", ord := 2
    parentId := some 1 }

def sentE : Sent := { sent_id := "e1", text := "a b", nodes := [aE, bE] }

/- Sentence F: the governing predicate "jsem" is itself a clitic form
adjacent to the target, hence a member of the clitic group. -/

def rootF : Node :=
  { id := 0, form := "<root>", upos := "X", deprel := "", ord := 0
    isRoot := true, childIds := [1] }

def predF : Node :=
  { id := 1, form := "jsem", upos := "AUX", deprel := "root", ord := 2
    parentId := some 0, childIds := [2] }

def seF : Node :=
  { id := 2, form := "se", upos := "PRON", deprel := "expl:pv", ord := 1
    parentId := some 1 }

def sentF : Sent := { sent_id := "f1", text := "Se jsem", nodes := [rootF, predF, seF] }

end Fix

/-! ## Basic facts about the tree accessors -/

theorem Sent.node?_mem {s : Sent} {i : Nat} {n : Node} (h : s.node? i = some n) :
    n ∈ s.nodes :=
  List.mem_of_find?_eq_some h

theorem Sent.node?_id {s : Sent} {i : Nat} {n : Node} (h : s.node? i = some n) :
    n.id = i := by
  have := List.find?_some h
  simpa using this

theorem Sent.parentOf_mem {s : Sent} {n p : Node} (h : s.parentOf n = some p) :
    p ∈ s.nodes := by
  unfold Sent.parentOf at h
  cases hpi : n.parentId with
  | none => rw [hpi] at h; cases h
  | some i => rw [hpi] at h; exact Sent.node?_mem h

theorem Sent.childrenOf_mem {s : Sent} {n c : Node} (h : c ∈ s.childrenOf n) :
    c ∈ s.nodes := by
  unfold Sent.childrenOf at h
  obtain ⟨i, _, hi⟩ := List.mem_filterMap.mp h
  exact Sent.node?_mem hi

theorem CliticFeats.auxCopChildren_sub {s : Sent} {n c : Node}
    (h : c ∈ CliticFeats.auxCopChildren s n) : c ∈ s.childrenOf n :=
  List.mem_of_mem_filter h

theorem CliticFeats.auxCopChildren_mem {s : Sent} {n c : Node}
    (h : c ∈ CliticFeats.auxCopChildren s n) : c ∈ s.nodes :=
  Sent.childrenOf_mem (CliticFeats.auxCopChildren_sub h)

/-! ## Fuel sufficiency for the visited-set guarded climbs

Each recursive step of the three upward climbs adds the id of a node of the
sentence to the visited set, so the number of sentence nodes whose id is not
yet visited strictly decreases; `stdFuel` therefore always suffices. -/

/-- Number of nodes of the sentence whose id is not in `visited`. -/
def unvisitedCount (s : Sent) (visited : List Nat) : Nat :=
  s.nodes.countP (fun n => !(visited.contains n.id))

theorem countP_lt_of_strict {α : Type} (l : List α) (p q : α → Bool)
    (hw : ∀ x ∈ l, q x = true → p x = true)
    (a : α) (ha : a ∈ l) (hpa : p a = true) (hqa : q a = false) :
    l.countP q < l.countP p := by
  induction l with
  | nil => cases ha
  | cons b t ih =>
    rcases List.mem_cons.mp ha with hb | hat
    · subst hb
      rw [List.countP_cons_of_pos _ _ hpa, List.countP_cons_of_neg _ _ (by simp [hqa])]
      have : t.countP q ≤ t.countP p :=
        List.countP_mono_left (fun x hx => hw x (List.mem_cons_of_mem _ hx))
      omega
    · have hrec := ih (fun x hx => hw x (List.mem_cons_of_mem _ hx)) hat
      have hqb : q b = true → p b = true := hw b (List.mem_cons_self _ _)
      by_cases hq : q b = true
      · rw [List.countP_cons_of_pos _ _ hq, List.countP_cons_of_pos _ _ (hqb hq)]
        omega
      · rw [List.countP_cons_of_neg _ _ hq]
        by_cases hpb : p b = true
        · rw [List.countP_cons_of_pos _ _ hpb]; omega
        · rw [List.countP_cons_of_neg _ _ hpb]; omega

theorem unvisitedCount_cons_lt {s : Sent} {visited : List Nat} {n : Node}
    (hn : n ∈ s.nodes) (hnv : visited.contains n.id = false) :
    unvisitedCount s (n.id :: visited) < unvisitedCount s visited := by
  refine countP_lt_of_strict s.nodes _ _ ?_ n hn ?_ ?_
  · intro x hx hq
    simp only [Bool.not_eq_true', List.contains_cons, Bool.or_eq_false_iff] at hq
    simp only [Bool.not_eq_true', hq.2]
  · simp only [Bool.not_eq_true', hnv]
  · simp

theorem CliticFeats.clauseTypeLoop_isSome_of_fuel {s : Sent} :
    ∀ (fuel : Nat) (visited : List Nat) (node : Node), node ∈ s.nodes →
      unvisitedCount s visited < fuel →
      (CliticFeats.clauseTypeLoop s fuel visited node).isSome := by
  intro fuel
  induction fuel with
  | zero => intro visited node _ h; omega
  | succ f ih =>
    intro visited node hmem hfuel
    rw [CliticFeats.clauseTypeLoop]
    cases hv : visited.contains node.id with
    | true => simp [hv]
    | false =>
      simp only [hv, Bool.false_eq_true, if_false]
      by_cases hb : baseDeprel node.deprel = "root"
      · simp [hb]
      · simp only [hb, if_false]
        cases hs : subordinatingDeprels.contains (baseDeprel node.deprel) with
        | true => simp [hs]
        | false =>
          simp only [hs, Bool.false_eq_true, if_false]
          cases hp : s.parentOf node with
          | none => simp
          | some p =>
            cases hr : p.isRoot with
            | true => simp [hr]
            | false =>
              simp only [hr, Bool.false_eq_true, if_false]
              apply ih _ p (Sent.parentOf_mem hp)
              have := unvisitedCount_cons_lt hmem hv
              omega

theorem CliticFeats.clauseTypeLoop_stdFuel_isSome (s : Sent) (n : Node) :
    (CliticFeats.clauseTypeLoop s (stdFuel s) [] n).isSome := by
  have hcount : unvisitedCount s [] ≤ s.nodes.length := List.countP_le_length _
  rw [stdFuel, CliticFeats.clauseTypeLoop]
  simp only [List.contains_nil, Bool.false_eq_true, if_false]
  by_cases hb : baseDeprel n.deprel = "root"
  · simp [hb]
  · simp only [hb, if_false]
    cases hs : subordinatingDeprels.contains (baseDeprel n.deprel) with
    | true => simp [hs]
    | false =>
      simp only [hs, Bool.false_eq_true, if_false]
      cases hp : s.parentOf n with
      | none => simp
      | some p =>
        cases hr : p.isRoot with
        | true => simp [hr]
        | false =>
          simp only [hr, Bool.false_eq_true, if_false]
          apply CliticFeats.clauseTypeLoop_isSome_of_fuel _ _ p (Sent.parentOf_mem hp)
          have h2 : unvisitedCount s [n.id] ≤ unvisitedCount s [] := by
            apply List.countP_mono_left
            intro x hx h
            simp only [Bool.not_eq_true', List.contains_cons] at h ⊢
            rfl
          omega

theorem CliticFeats.clauseRootLoop_isSome_of_fuel {s : Sent} (pred : Node) :
    ∀ (fuel : Nat) (visited : List Nat) (node : Node), node ∈ s.nodes →
      unvisitedCount s visited < fuel →
      (CliticFeats.clauseRootLoop s pred fuel visited node).isSome := by
  intro fuel
  induction fuel with
  | zero => intro visited node _ h; omega
  | succ f ih =>
    intro visited node hmem hfuel
    rw [CliticFeats.clauseRootLoop]
    cases hr : node.isRoot with
    | true => simp [hr]
    | false =>
      simp only [hr, Bool.false_eq_true, if_false]
      cases hv : visited.contains node.id with
      | true => simp [hv]
      | false =>
        simp only [hv, Bool.false_eq_true, if_false]
        by_cases hb : baseDeprel node.deprel ≠ "xcomp"
        · simp [hb]
        · simp only [hb, if_false]
          cases hp : s.parentOf node with
          | none => simp
          | some p =>
            cases hpr : p.isRoot with
            | true => simp [hpr]
            | false =>
              simp only [hpr, Bool.false_eq_true, if_false]
              apply ih _ p (Sent.parentOf_mem hp)
              have := unvisitedCount_cons_lt hmem hv
              omega

theorem CliticFeats.clauseRootLoop_stdFuel_isSome (s : Sent) (pred n : Node) :
    (CliticFeats.clauseRootLoop s pred (stdFuel s) [] n).isSome := by
  have hcount : unvisitedCount s [] ≤ s.nodes.length := List.countP_le_length _
  rw [stdFuel, CliticFeats.clauseRootLoop]
  cases hr : n.isRoot with
  | true => simp [hr]
  | false =>
    simp only [hr, Bool.false_eq_true, if_false, List.contains_nil]
    by_cases hb : baseDeprel n.deprel ≠ "xcomp"
    · simp [hb]
    · simp only [hb, if_false]
      cases hp : s.parentOf n with
      | none => simp
      | some p =>
        cases hpr : p.isRoot with
        | true => simp [hpr]
        | false =>
          simp only [hpr, Bool.false_eq_true, if_false]
          apply CliticFeats.clauseRootLoop_isSome_of_fuel _ _ _ p (Sent.parentOf_mem hp)
          have h2 : unvisitedCount s [n.id] ≤ unvisitedCount s [] := by
            apply List.countP_mono_left
            intro x hx h
            simp only [Bool.not_eq_true', List.contains_cons] at h ⊢
            rfl
          omega

theorem CliticFeats.partsLoop_isSome_of_fuel {s : Sent} :
    ∀ (fuel : Nat) (visited : List Nat) (parts : List Node) (node : Node), node ∈ s.nodes →
      unvisitedCount s visited < fuel →
      (CliticFeats.partsLoop s fuel visited parts node).isSome := by
  intro fuel
  induction fuel with
  | zero => intro visited parts node _ h; omega
  | succ f ih =>
    intro visited parts node hmem hfuel
    rw [CliticFeats.partsLoop]
    by_cases hb : baseDeprel node.deprel ≠ "xcomp"
    · simp [hb]
    · simp only [hb, if_false]
      cases hp : s.parentOf node with
      | none => simp
      | some head =>
        cases hr : head.isRoot with
        | true => simp [hr]
        | false =>
          simp only [hr, Bool.false_eq_true, if_false]
          cases hv : visited.contains head.id with
          | true => simp [hv]
          | false =>
            simp only [hv, Bool.false_eq_true, if_false]
            apply ih _ _ head (Sent.parentOf_mem hp)
            have := unvisitedCount_cons_lt (Sent.parentOf_mem hp) hv
            omega

theorem CliticFeats.predicateParts_isSome (s : Sent) (p : Node) :
    (CliticFeats.predicateParts s p).isSome := by
  have hcount : unvisitedCount s [] ≤ s.nodes.length := List.countP_le_length _
  rw [CliticFeats.predicateParts, stdFuel, CliticFeats.partsLoop]
  by_cases hb : baseDeprel p.deprel ≠ "xcomp"
  · simp [hb]
  · simp only [hb, if_false]
    cases hp : s.parentOf p with
    | none => simp
    | some head =>
      cases hr : head.isRoot with
      | true => simp [hr]
      | false =>
        simp only [hr, Bool.false_eq_true, if_false]
        cases hv : List.contains [p.id] head.id with
        | true => simp [hv]
        | false =>
          simp only [hv, Bool.false_eq_true, if_false]
          apply CliticFeats.partsLoop_isSome_of_fuel _ _ _ head (Sent.parentOf_mem hp)
          have h2 : unvisitedCount s (head.id :: [p.id]) ≤ unvisitedCount s [] := by
            apply List.countP_mono_left
            intro x hx h
            simp only [Bool.not_eq_true', List.contains_cons] at h ⊢
            rfl
          omega

theorem CliticFeats.collectLoop_isSome_of_fuel {s : Sent} :
    ∀ (fuel : Nat) (stack : List Node) (seen : List Nat) (acc : List Node),
      (∀ x ∈ stack, x ∈ s.nodes) →
      unvisitedCount s seen * (childWeight s + 1) + stack.length < fuel →
      (CliticFeats.collectLoop s fuel stack seen acc).isSome := by
  intro fuel
  induction fuel with
  | zero => intro stack seen acc _ h; omega
  | succ f ih =>
    intro stack seen acc hsub hfuel
    match stack with
    | [] => rw [CliticFeats.collectLoop]; simp
    | n :: rest =>
      rw [CliticFeats.collectLoop]
      cases hv : seen.contains n.id with
      | true =>
        rw [if_pos rfl]
        apply ih rest seen acc (fun x hx => hsub x (List.mem_cons_of_mem _ hx))
        simp only [List.length_cons] at hfuel
        omega
      | false =>
        rw [if_neg (by simp)]
        have hmem : n ∈ s.nodes := hsub n (List.mem_cons_self _ _)
        have hU : unvisitedCount s (n.id :: seen) < unvisitedCount s seen :=
          unvisitedCount_cons_lt hmem hv
        have hch : (s.childrenOf n).length ≤ childWeight s := by
          have h1 : (s.childrenOf n).length ≤ n.childIds.length :=
            List.length_filterMap_le _ _
          have h2 : n.childIds.length ≤ childWeight s :=
            List.le_sum_of_mem (List.mem_map_of_mem _ hmem)
          omega
      
        refine ih _ _ _ ?_ ?_
        · intro x hx
          rcases List.mem_append.mp hx with h | h
          · exact Sent.childrenOf_mem h
          · exact hsub x (List.mem_cons_of_mem _ h)
        · have hlen : (s.childrenOf n ++ rest).length
              = (s.childrenOf n).length + rest.length := List.length_append _ _
          simp only [List.length_cons] at hfuel
          have hmul : (unvisitedCount s (n.id :: seen) + 1) * (childWeight s + 1)
              ≤ unvisitedCount s seen * (childWeight s + 1) :=
            Nat.mul_le_mul_right _ (by omega)
          rw [Nat.succ_mul] at hmul
          rw [hlen]
          omega

theorem CliticFeats.collectLoop_subtreeFuel_isSome (s : Sent) (root : Node) :
    (CliticFeats.collectLoop s (subtreeFuel s root) [root] [] []).isSome := by
  have hstep : subtreeFuel s root
      = (s.nodes.length * (childWeight s + 1) + root.childIds.length + 1) + 1 := by
    rw [subtreeFuel]
  rw [hstep, CliticFeats.collectLoop]
  rw [if_neg (by simp)]
  refine CliticFeats.collectLoop_isSome_of_fuel _ _ _ _ ?_ ?_
  · intro x hx
    rcases List.mem_append.mp hx with h | h
    · exact Sent.childrenOf_mem h
    · cases h
  · have hU : unvisitedCount s [root.id] ≤ s.nodes.length := List.countP_le_length _
    have hmul : unvisitedCount s [root.id] * (childWeight s + 1)
        ≤ s.nodes.length * (childWeight s + 1) :=
      Nat.mul_le_mul_right _ hU
    have hch : (s.childrenOf root).length ≤ root.childIds.length :=
      List.length_filterMap_le _ _
    have hlen : (s.childrenOf root ++ []).length = (s.childrenOf root).length := by
      simp
    rw [hlen]
    omega

/-! ## Claim C8: all traversals terminate -/

/-- C8: every tree traversal of the engine terminates on any finite node
set, even when parent links form a cycle or the child relation revisits
nodes: the shared `xcomp` climb of `_predicate_form`/`_predicate_nodes`, the
upward walks of `_clause_type` and `_clause_root`, and the stack-driven
subtree collection of `_collect_subtree_nodes` all return a value (never run
out of the stated fuel), thanks to their visited/seen sets. -/
theorem c8_all_traversals_terminate (s : Sent) (n : Node) :
    (CliticFeats.clauseTypeLoop s (stdFuel s) [] n).isSome ∧
    (∀ pred : Node, (CliticFeats.clauseRootLoop s pred (stdFuel s) [] n).isSome) ∧
    (CliticFeats.predicateParts s n).isSome ∧
    (CliticFeats.collectLoop s (CliticFeats.subtreeFuel s n) [n] [] []).isSome :=
  ⟨CliticFeats.clauseTypeLoop_stdFuel_isSome s n,
   fun pred => CliticFeats.clauseRootLoop_stdFuel_isSome s pred n,
   CliticFeats.predicateParts_isSome s n,
   CliticFeats.collectLoop_subtreeFuel_isSome s n⟩

/-! ## Claim C10: every data row is followed by the sentence line -/

/-- C10: `process_node` either prints nothing or prints exactly two lines,
the data record followed by the sentence's full surface text; a data row is
never emitted alone. -/
theorem c10_record_followed_by_sentence_line (s : Sent) (n : Node) :
    CliticFeats.process_node s n = [] ∨
    CliticFeats.process_node s n = [CliticFeats.dataLine s n, s.text] := by
  unfold CliticFeats.process_node
  by_cases h : (lowerStr n.form != "se" || n.upos == "ADP") = true
  · left; rw [if_pos h]
  · right; rw [if_neg h]

/-! ## Claim C1 (corrected): only the form "se" is processed -/

/-- C1 counterexample: the token "si" of sentence B has lowercased form "si"
and is not tagged ADP, so under the claim it should yield exactly one output
record, yet `process_node` emits nothing for it. -/
theorem c1_counterexample_si_token_skipped :
    lowerStr Fix.siB.form = "si" ∧ Fix.siB.upos ≠ "ADP" ∧
    CliticFeats.process_node Fix.sentB Fix.siB = [] :=
  ⟨rfl, by decide, rfl⟩

/-- C1 (amended): `process_node` emits exactly one output record (the data
row, followed by the sentence line) for a token iff the token's lowercased
form is exactly "se" and its UPOS is not ADP; every other token — including
"si" tokens and "se" tagged ADP — is skipped with no output row. -/
theorem c1_amended_only_se_emits (s : Sent) (n : Node) :
    (lowerStr n.form = "se" ∧ n.upos ≠ "ADP" →
      CliticFeats.process_node s n = [CliticFeats.dataLine s n, s.text]) ∧
    (lowerStr n.form ≠ "se" ∨ n.upos = "ADP" →
      CliticFeats.process_node s n = []) := by
  constructor
  · intro ⟨h1, h2⟩
    unfold CliticFeats.process_node
    rw [if_neg]
    simp only [Bool.or_eq_true, bne_iff_ne, beq_iff_eq]
    push_neg
    exact ⟨h1, h2⟩
  · intro h
    unfold CliticFeats.process_node
    rw [if_pos]
    simp only [Bool.or_eq_true, bne_iff_ne, beq_iff_eq]
    tauto

/-- C1 witness: on sentence A the "se" token produces the data row and the
sentence line. -/
theorem c1_witness_se_emitted :
    CliticFeats.process_node Fix.sentA Fix.seA
      = [CliticFeats.dataLine Fix.sentA Fix.seA, Fix.sentA.text] :=
  (c1_amended_only_se_emits Fix.sentA Fix.seA).1 ⟨rfl, by decide⟩

/-! ## Claim C9: a predicate inside the clitic group leaves the unit list -/

theorem CliticFeats.clauseUnitsLoop_no_group_node (groupIds : List Nat) :
    ∀ (l : List Node) (units : List CliticFeats.CUnit) (gidx : Option Nat),
      (∀ n : Node, CliticFeats.CUnit.node n ∈ units → groupIds.contains n.id = false) →
      ∀ n : Node,
        CliticFeats.CUnit.node n ∈ (CliticFeats.clauseUnitsLoop groupIds l units gidx).1 →
        groupIds.contains n.id = false := by
  intro l
  induction l with
  | nil =>
    intro units gidx hinv n hn
    simp only [CliticFeats.clauseUnitsLoop] at hn
    exact hinv n hn
  | cons m rest ih =>
    intro units gidx hinv n hn
    simp only [CliticFeats.clauseUnitsLoop] at hn
    by_cases hm : groupIds.contains m.id = true
    · rw [if_pos hm] at hn
      cases gidx with
      | none =>
        refine ih _ _ ?_ n hn
        intro k hk
        rcases List.mem_append.mp hk with h | h
        · exact hinv k h
        · simp at h
      | some g => exact ih _ _ hinv n hn
    · rw [if_neg hm] at hn
      refine ih _ _ ?_ n hn
      intro k hk
      rcases List.mem_append.mp hk with h | h
      · exact hinv k h
      · simp only [List.mem_singleton, CliticFeats.CUnit.node.injEq] at h
        subst h
        exact Bool.not_eq_true _ ▸ (by simpa using hm)

/-- C9: when the governing predicate is itself a member of the clitic group,
it is collapsed into the group placeholder — no unit of the collapsed
sequence is the predicate — and `_relation_to_regent` returns the
placeholder `"_"` instead of any of the five relation labels. -/
theorem c9_predicate_in_group_relation_undefined (s : Sent) (p : Node) (group : List Node)
    (hmem : p.id ∈ group.map (fun n => n.id)) :
    (∀ n : Node,
      CliticFeats.CUnit.node n
          ∈ (CliticFeats.clause_units (CliticFeats.clause_nodes s (some p)) group).1 →
        n.id ≠ p.id) ∧
    CliticFeats.relation_to_regent s (some p) group = "_" := by
  have hno : ∀ n : Node,
      CliticFeats.CUnit.node n
          ∈ (CliticFeats.clause_units (CliticFeats.clause_nodes s (some p)) group).1 →
        (group.map (fun n => n.id)).contains n.id = false := by
    intro n hn
    rw [CliticFeats.clause_units] at hn
    exact CliticFeats.clauseUnitsLoop_no_group_node _ _ _ _ (by intro k hk; cases hk) n hn
  have hne : ∀ n : Node,
      CliticFeats.CUnit.node n
          ∈ (CliticFeats.clause_units (CliticFeats.clause_nodes s (some p)) group).1 →
        n.id ≠ p.id := by
    intro n hn heq
    have := hno n hn
    rw [heq] at this
    have hc : (group.map (fun n => n.id)).contains p.id = true := by
      simpa using hmem
    rw [hc] at this
    cases this
  refine ⟨hne, ?_⟩
  have hfind : (CliticFeats.clause_units (CliticFeats.clause_nodes s (some p)) group).1.findIdx?
      (CliticFeats.unit_is_node p) = none := by
    rw [List.findIdx?_eq_none_iff]
    intro u hu
    cases u with
    | group => rfl
    | node n =>
      have := hne n hu
      simp only [CliticFeats.unit_is_node, beq_eq_false_iff_ne, ne_eq]
      exact this
  cases hg : (CliticFeats.clause_units (CliticFeats.clause_nodes s (some p)) group).2 with
  | none => simp [CliticFeats.relation_to_regent, hg]
  | some g => simp [CliticFeats.relation_to_regent, hg, hfind]

/-- C9 witness: in sentence F the governor "jsem" is adjacent to the target
"se" and a clitic form, so it lands in the group and the relation column is
the placeholder. -/
theorem c9_witness_jsem_predicate :
    CliticFeats.relation_to_regent Fix.sentF (some Fix.predF)
      (CliticFeats.clitic_group Fix.sentF Fix.seF (some Fix.predF)) = "_" :=
  (c9_predicate_in_group_relation_undefined Fix.sentF Fix.predF
    (CliticFeats.clitic_group Fix.sentF Fix.seF (some Fix.predF)) (by decide)).2

/-! ## Claim C3: the clause-position decision table -/

/-- C3: `_clause_position` returns the placeholder exactly when the clitic
group does not appear in the collapsed clause-unit sequence, and otherwise
implements, first-match-wins, the decision table of the specification:
index 0 initial, index 1 postinitial, last unit preceded by the predicate
final, second-to-last unit followed by the predicate prefinal, otherwise
medial. -/
theorem c3_clause_position_decision_table (s : Sent) (pred : Option Node) (group : List Node) :
    CliticFeats.clause_position s pred group
      = specClausePosition
          (CliticFeats.clause_units (CliticFeats.clause_nodes s pred) group).1
          (CliticFeats.clause_units (CliticFeats.clause_nodes s pred) group).2 pred ∧
    (CliticFeats.clause_position s pred group = "_" ↔
      (CliticFeats.clause_units (CliticFeats.clause_nodes s pred) group).2 = none) := by
  cases hg : (CliticFeats.clause_units (CliticFeats.clause_nodes s pred) group).2 with
  | none =>
    have hcp2 : CliticFeats.clause_position s pred group = "_" := by
      rw [CliticFeats.clause_position, hg]
    refine ⟨?_, by simp [hcp2, hg]⟩
    rw [hcp2]
    rfl
  | some gidx =>
    have hcp2 : CliticFeats.clause_position s pred group
        = (if gidx = 0 then "iniciální"
          else if gidx = 1 then "postiniciální"
          else if gidx = (CliticFeats.clause_units (CliticFeats.clause_nodes s pred) group).1.length - 1
              ∧ 0 < gidx
              ∧ CliticFeats.unitAtIs
                  (CliticFeats.clause_units (CliticFeats.clause_nodes s pred) group).1
                  (gidx - 1) pred then "finální"
          else if gidx = (CliticFeats.clause_units (CliticFeats.clause_nodes s pred) group).1.length - 2
              ∧ gidx + 1 < (CliticFeats.clause_units (CliticFeats.clause_nodes s pred) group).1.length
              ∧ CliticFeats.unitAtIs
                  (CliticFeats.clause_units (CliticFeats.clause_nodes s pred) group).1
                  (gidx + 1) pred then "prefinální"
          else "mediální") := by
      rw [CliticFeats.clause_position, hg]
    constructor
    · rw [hcp2, specClausePosition]
      by_cases h0 : gidx = 0
      · rw [if_pos h0, if_pos h0]
      · rw [if_neg h0, if_neg h0]
        by_cases h1 : gidx = 1
        · rw [if_pos h1, if_pos h1]
        · rw [if_neg h1, if_neg h1]
          have h2 : 2 ≤ gidx := by omega
          refine if_congr ?_ rfl (if_congr ?_ rfl rfl)
          · constructor
            · rintro ⟨ha, _, hA⟩
              exact ⟨by omega, hA⟩
            · rintro ⟨ha, hA⟩
              exact ⟨by omega, by omega, hA⟩
          · constructor
            · rintro ⟨ha, hb, hB⟩
              exact ⟨by omega, hB⟩
            · rintro ⟨ha, hB⟩
              exact ⟨by omega, by omega, hB⟩
    · rw [hcp2]
      constructor
      · intro h
        exfalso
        revert h
        split_ifs <;> decide
      · intro h
        cases h

/-! ## Claim C2: the relation-to-regent decision order -/

/-- C2: for every resolvable (clitic group, predicate) pair — the group
appears in the collapsed unit sequence at `gidx` and the predicate is a unit
at `pidx` — `_relation_to_regent` returns exactly one of the five labels,
decided in order: group immediately before predicate, group immediately
after predicate, both neighbours of the group in the complex-predicate node
set, group positionally before the predicate, otherwise "jiné"; the five
outcomes are mutually exclusive and exhaustive. -/
theorem c2_relation_decision_order (s : Sent) (p : Node) (group : List Node) (gidx pidx : Nat)
    (hg : (CliticFeats.clause_units (CliticFeats.clause_nodes s (some p)) group).2 = some gidx)
    (hp : (CliticFeats.clause_units (CliticFeats.clause_nodes s (some p)) group).1.findIdx?
        (CliticFeats.unit_is_node p) = some pidx) :
    CliticFeats.relation_to_regent s (some p) group ∈
        (["kontaktní preverbální", "kontaktní postverbální", "kontaktní interverbální",
          "izolovaná", "jiné"] : List String) ∧
    (CliticFeats.relation_to_regent s (some p) group = "kontaktní preverbální" ↔
      gidx + 1 = pidx) ∧
    (CliticFeats.relation_to_regent s (some p) group = "kontaktní postverbální" ↔
      ¬(gidx + 1 = pidx) ∧ gidx = pidx + 1) ∧
    (CliticFeats.relation_to_regent s (some p) group = "kontaktní interverbální" ↔
      ¬(gidx + 1 = pidx) ∧ ¬(gidx = pidx + 1) ∧
      (CliticFeats.unitInIds ((CliticFeats.predicate_nodes s (some p)).map (fun n => n.id))
          (if 0 < gidx then
            (CliticFeats.clause_units (CliticFeats.clause_nodes s (some p)) group).1[gidx - 1]?
          else none) = true ∧
        CliticFeats.unitInIds ((CliticFeats.predicate_nodes s (some p)).map (fun n => n.id))
          (CliticFeats.clause_units (CliticFeats.clause_nodes s (some p)) group).1[gidx + 1]?
          = true)) ∧
    (CliticFeats.relation_to_regent s (some p) group = "izolovaná" ↔
      ¬(gidx + 1 = pidx) ∧ ¬(gidx = pidx + 1) ∧
      ¬(CliticFeats.unitInIds ((CliticFeats.predicate_nodes s (some p)).map (fun n => n.id))
          (if 0 < gidx then
            (CliticFeats.clause_units (CliticFeats.clause_nodes s (some p)) group).1[gidx - 1]?
          else none) = true ∧
        CliticFeats.unitInIds ((CliticFeats.predicate_nodes s (some p)).map (fun n => n.id))
          (CliticFeats.clause_units (CliticFeats.clause_nodes s (some p)) group).1[gidx + 1]?
          = true) ∧
      gidx < pidx) ∧
    (CliticFeats.relation_to_regent s (some p) group = "jiné" ↔
      ¬(gidx + 1 = pidx) ∧ ¬(gidx = pidx + 1) ∧
      ¬(CliticFeats.unitInIds ((CliticFeats.predicate_nodes s (some p)).map (fun n => n.id))
          (if 0 < gidx then
            (CliticFeats.clause_units (CliticFeats.clause_nodes s (some p)) group).1[gidx - 1]?
          else none) = true ∧
        CliticFeats.unitInIds ((CliticFeats.predicate_nodes s (some p)).map (fun n => n.id))
          (CliticFeats.clause_units (CliticFeats.clause_nodes s (some p)) group).1[gidx + 1]?
          = true) ∧
      ¬(gidx < pidx)) := by
  have hr : CliticFeats.relation_to_regent s (some p) group
      = (if gidx + 1 = pidx then "kontaktní preverbální"
        else if gidx = pidx + 1 then "kontaktní postverbální"
        else if CliticFeats.unitInIds
              ((CliticFeats.predicate_nodes s (some p)).map (fun n => n.id))
              (if 0 < gidx then
                (CliticFeats.clause_units (CliticFeats.clause_nodes s (some p)) group).1[gidx - 1]?
              else none) = true
            ∧ CliticFeats.unitInIds
              ((CliticFeats.predicate_nodes s (some p)).map (fun n => n.id))
              (CliticFeats.clause_units (CliticFeats.clause_nodes s (some p)) group).1[gidx + 1]?
              = true then "kontaktní interverbální"
        else if gidx < pidx then "izolovaná"
        else "jiné") := by
    simp only [CliticFeats.relation_to_regent, hg, hp]
  by_cases hA : gidx + 1 = pidx
  · rw [if_pos hA] at hr
    exact ⟨by rw [hr]; decide,
      by rw [hr]; exact iff_of_true rfl hA,
      by rw [hr]; exact iff_of_false (by decide) (fun h => h.1 hA),
      by rw [hr]; exact iff_of_false (by decide) (fun h => h.1 hA),
      by rw [hr]; exact iff_of_false (by decide) (fun h => h.1 hA),
      by rw [hr]; exact iff_of_false (by decide) (fun h => h.1 hA)⟩
  · rw [if_neg hA] at hr
    by_cases hB : gidx = pidx + 1
    · rw [if_pos hB] at hr
      exact ⟨by rw [hr]; decide,
        by rw [hr]; exact iff_of_false (by decide) hA,
        by rw [hr]; exact iff_of_true rfl ⟨hA, hB⟩,
        by rw [hr]; exact iff_of_false (by decide) (fun h => h.2.1 hB),
        by rw [hr]; exact iff_of_false (by decide) (fun h => h.2.1 hB),
        by rw [hr]; exact iff_of_false (by decide) (fun h => h.2.1 hB)⟩
    · rw [if_neg hB] at hr
      by_cases hC : CliticFeats.unitInIds
            ((CliticFeats.predicate_nodes s (some p)).map (fun n => n.id))
            (if 0 < gidx then
              (CliticFeats.clause_units (CliticFeats.clause_nodes s (some p)) group).1[gidx - 1]?
            else none) = true
          ∧ CliticFeats.unitInIds
            ((CliticFeats.predicate_nodes s (some p)).map (fun n => n.id))
            (CliticFeats.clause_units (CliticFeats.clause_nodes s (some p)) group).1[gidx + 1]?
            = true
      · rw [if_pos hC] at hr
        exact ⟨by rw [hr]; decide,
          by rw [hr]; exact iff_of_false (by decide) hA,
          by rw [hr]; exact iff_of_false (by decide) (fun h => hB h.2),
          by rw [hr]; exact iff_of_true rfl ⟨hA, hB, hC⟩,
          by rw [hr]; exact iff_of_false (by decide) (fun h => h.2.2.1 hC),
          by rw [hr]; exact iff_of_false (by decide) (fun h => h.2.2.1 hC)⟩
      · rw [if_neg hC] at hr
        by_cases hD : gidx < pidx
        · rw [if_pos hD] at hr
          exact ⟨by rw [hr]; decide,
            by rw [hr]; exact iff_of_false (by decide) hA,
            by rw [hr]; exact iff_of_false (by decide) (fun h => hB h.2),
            by rw [hr]; exact iff_of_false (by decide) (fun h => hC h.2.2),
            by rw [hr]; exact iff_of_true rfl ⟨hA, hB, hC, hD⟩,
            by rw [hr]; exact iff_of_false (by decide) (fun h => h.2.2.2 hD)⟩
        · rw [if_neg hD] at hr
          exact ⟨by rw [hr]; decide,
            by rw [hr]; exact iff_of_false (by decide) hA,
            by rw [hr]; exact iff_of_false (by decide) (fun h => hB h.2),
            by rw [hr]; exact iff_of_false (by decide) (fun h => hC h.2.2),
            by rw [hr]; exact iff_of_false (by decide) (fun h => hD h.2.2.2),
            by rw [hr]; exact iff_of_true rfl ⟨hA, hB, hC, hD⟩⟩

/-- C2 witness: in sentence A the group "se jsem" is the unit directly
before the predicate, so the first rule fires. -/
theorem c2_witness_preverbal :
    CliticFeats.relation_to_regent Fix.sentA (some Fix.predA)
      (CliticFeats.clitic_group Fix.sentA Fix.seA (some Fix.predA)) = "kontaktní preverbální" :=
  ((c2_relation_decision_order Fix.sentA Fix.predA
      (CliticFeats.clitic_group Fix.sentA Fix.seA (some Fix.predA)) 1 2
      (by decide) (by decide)).2.1).mpr rfl

/-! ## Claim C6: cycle safety of the clause-type and clause-root walks -/

theorem CliticFeats.clauseTypeLoop_HV {s : Sent} {start : Node}
    (hok : ∀ n : Node, ClimbsTo s start n →
      baseDeprel n.deprel ≠ "root" ∧
      subordinatingDeprels.contains (baseDeprel n.deprel) = false) :
    ∀ (fuel : Nat) (visited : List Nat) (node : Node), ClimbsTo s start node →
      CliticFeats.clauseTypeLoop s fuel visited node = none ∨
      CliticFeats.clauseTypeLoop s fuel visited node = some "HV" := by
  intro fuel
  induction fuel with
  | zero => intro visited node _; left; rfl
  | succ f ih =>
    intro visited node hcl
    simp only [CliticFeats.clauseTypeLoop]
    by_cases hv : visited.contains node.id = true
    · right; rw [if_pos hv]
    · rw [if_neg hv]
      obtain ⟨hnr, hns⟩ := hok node hcl
      rw [if_neg hnr, if_neg (by simpa using hns)]
      cases hp : s.parentOf node with
      | none => right; rfl
      | some q =>
        cases hq : q.isRoot with
        | true => right; simp [hq]
        | false =>
          have hrec := ih (node.id :: visited) q (ClimbsTo.step hcl hp)
          simpa [hq] using hrec

/-- C6: when no node reachable upward from the predicate through parent
links carries the base relation `root` or a subordinating relation — in
particular when the parent links of those non-root nodes form a cycle —
`_clause_type` still terminates and returns `HV`, and the `_clause_root`
walk also terminates (it stops climbing instead of failing). -/
theorem c6_cycle_safe_clause_type (s : Sent) (p : Node) (hroot : p.isRoot = false)
    (hok : ∀ n : Node, ClimbsTo s p n →
      baseDeprel n.deprel ≠ "root" ∧
      subordinatingDeprels.contains (baseDeprel n.deprel) = false) :
    CliticFeats.clause_type s (some p) = "HV" ∧
    (CliticFeats.clauseRootLoop s p (stdFuel s) [] p).isSome := by
  refine ⟨?_, CliticFeats.clauseRootLoop_stdFuel_isSome s p p⟩
  have hterm := CliticFeats.clauseTypeLoop_stdFuel_isSome s p
  rcases CliticFeats.clauseTypeLoop_HV hok (stdFuel s) [] p ClimbsTo.refl with h | h
  · rw [h] at hterm; cases hterm
  · simp [CliticFeats.clause_type, hroot, h]

/-- Nodes reachable upward from `aE` in the cyclic sentence E. -/
theorem climbsTo_sentE_cases (n : Node) (h : ClimbsTo Fix.sentE Fix.aE n) :
    n = Fix.aE ∨ n = Fix.bE := by
  induction h with
  | refl => left; rfl
  | step hb hp ih =>
    rename_i b c
    rcases ih with hba | hbb
    · subst hba
      have hpa : Sent.parentOf Fix.sentE Fix.aE = some Fix.bE := by decide
      rw [hpa] at hp
      cases hp
      right; rfl
    · subst hbb
      have hpb : Sent.parentOf Fix.sentE Fix.bE = some Fix.aE := by decide
      rw [hpb] at hp
      cases hp
      left; rfl

/-- C6 witness: in sentence E the parent links of the two non-root nodes
form a 2-cycle; the clause-type walk returns `HV` and the clause-root walk
returns a value. -/
theorem c6_witness_two_cycle :
    CliticFeats.clause_type Fix.sentE (some Fix.aE) = "HV" ∧
    (CliticFeats.clauseRootLoop Fix.sentE Fix.aE (stdFuel Fix.sentE) [] Fix.aE).isSome :=
  c6_cycle_safe_clause_type Fix.sentE Fix.aE (by decide)
    (fun n h => by
      rcases climbsTo_sentE_cases n h with h1 | h1 <;> subst h1 <;> exact ⟨by decide, by decide⟩)

/-! ## Claim C5: xcomp is transparent for type, root and predicate form -/

/-- C5: for a chain of three verbs v1 ← v2 ← v3 where v3 and v2 attach by
base relation `xcomp` and v1 by `root`, the clause root of v3 is v1 (one
clause), the clause type is `HV`, and the complex predicate of v3 contains
all three verbs together with all their `aux`/`cop` children; the emitted
`predicate_form` string is exactly the space-joined forms of those members. -/
theorem c5_xcomp_transparent (s : Sent) (v1 v2 v3 : Node)
    (h32 : s.parentOf v3 = some v2) (h21 : s.parentOf v2 = some v1)
    (hb3 : baseDeprel v3.deprel = "xcomp") (hb2 : baseDeprel v2.deprel = "xcomp")
    (hb1 : baseDeprel v1.deprel = "root")
    (hr1 : v1.isRoot = false) (hr2 : v2.isRoot = false) (hr3 : v3.isRoot = false)
    (hne23 : v2.id ≠ v3.id) (hne13 : v1.id ≠ v3.id) (hne12 : v1.id ≠ v2.id) :
    CliticFeats.clause_root s (some v3) = some v1 ∧
    CliticFeats.clause_type s (some v3) = "HV" ∧
    v1 ∈ CliticFeats.predicate_nodes s (some v3) ∧
    v2 ∈ CliticFeats.predicate_nodes s (some v3) ∧
    v3 ∈ CliticFeats.predicate_nodes s (some v3) ∧
    (∀ c : Node, (c ∈ CliticFeats.auxCopChildren s v1 ∨ c ∈ CliticFeats.auxCopChildren s v2 ∨
        c ∈ CliticFeats.auxCopChildren s v3) → c ∈ CliticFeats.predicate_nodes s (some v3)) ∧
    CliticFeats.predicate_form s (some v3)
      = String.intercalate " " ((CliticFeats.predicate_nodes s (some v3)).map (fun n => n.form)) := by
  have hv2 : v2 ∈ s.nodes := Sent.parentOf_mem h32
  obtain ⟨f, hf⟩ : ∃ f, stdFuel s = f + 3 := by
    have hpos : 0 < s.nodes.length := List.length_pos_of_mem hv2
    exact ⟨s.nodes.length - 1, by rw [stdFuel]; omega⟩
  have hct : CliticFeats.clauseTypeLoop s (f + 3) [] v3 = some "HV" := by
    simp +decide [CliticFeats.clauseTypeLoop, hb3, hb2, hb1, h32, h21, hr1, hr2,
      hne23, hne13, hne12]
  have hcr : CliticFeats.clauseRootLoop s v3 (f + 3) [] v3 = some v1 := by
    simp +decide [CliticFeats.clauseRootLoop, hb3, hb2, hb1, h32, h21, hr1, hr2, hr3,
      hne23, hne13, hne12]
  have hpp : CliticFeats.predicateParts s v3
      = some (((v3 :: CliticFeats.auxCopChildren s v3)
          ++ v2 :: CliticFeats.auxCopChildren s v2) ++ v1 :: CliticFeats.auxCopChildren s v1) := by
    rw [CliticFeats.predicateParts, hf]
    simp +decide [CliticFeats.partsLoop, hb3, hb2, hb1, h32, h21, hr1, hr2,
      hne23, hne13, hne12]
  have hpn : CliticFeats.predicate_nodes s (some v3)
      = sortByOrd (((v3 :: CliticFeats.auxCopChildren s v3)
          ++ v2 :: CliticFeats.auxCopChildren s v2) ++ v1 :: CliticFeats.auxCopChildren s v1) := by
    simp [CliticFeats.predicate_nodes, hr3, hpp]
  have hmemiff : ∀ x : Node, x ∈ CliticFeats.predicate_nodes s (some v3) ↔
      x ∈ (((v3 :: CliticFeats.auxCopChildren s v3)
          ++ v2 :: CliticFeats.auxCopChildren s v2) ++ v1 :: CliticFeats.auxCopChildren s v1) := by
    intro x
    rw [hpn]
    exact List.Perm.mem_iff (List.perm_insertionSort ordLE _)
  refine ⟨?_, ?_, ?_, ?_, ?_, ?_, ?_⟩
  · rw [CliticFeats.clause_root]
    rw [if_neg (by simp [hr3]), hf, hcr]
  · rw [CliticFeats.clause_type]
    rw [if_neg (by simp [hr3]), hf, hct]
    rfl
  · rw [hmemiff]; simp
  · rw [hmemiff]; simp
  · rw [hmemiff]; simp
  · intro c hc
    rw [hmemiff]
    rcases hc with h | h | h <;> simp [h]
  · rw [CliticFeats.predicate_form, hpn]
    simp [hr3, hpp, sortByOrd]

/-- C5 witness: the chain "musel ← zacit ← opirat" of sentence D collapses
to one clause with root "musel", type `HV`, and a predicate containing all
three verbs. -/
theorem c5_witness_three_verb_chain :
    CliticFeats.clause_root Fix.sentD (some Fix.v3D) = some Fix.v1D ∧
    CliticFeats.clause_type Fix.sentD (some Fix.v3D) = "HV" ∧
    Fix.v1D ∈ CliticFeats.predicate_nodes Fix.sentD (some Fix.v3D) ∧
    Fix.v2D ∈ CliticFeats.predicate_nodes Fix.sentD (some Fix.v3D) ∧
    Fix.v3D ∈ CliticFeats.predicate_nodes Fix.sentD (some Fix.v3D) :=
  have h := c5_xcomp_transparent Fix.sentD Fix.v1D Fix.v2D Fix.v3D
    (by decide) (by decide) (by decide) (by decide) (by decide) (by decide)
    (by decide) (by decide) (by decide) (by decide) (by decide)
  ⟨h.1, h.2.1, h.2.2.1, h.2.2.2.1, h.2.2.2.2.1⟩

/-! ## Claim C4: clitic-group contiguity -/

theorem CliticFeats.expandLeft_le (np : List Node) : ∀ k, CliticFeats.expandLeft np k ≤ k := by
  intro k
  induction k with
  | zero => simp [CliticFeats.expandLeft]
  | succ m ih =>
    cases h : np[m]? with
    | none => simp [CliticFeats.expandLeft, h]
    | some x =>
      by_cases hc : CliticFeats.is_group_clitic x = true
      · simp only [CliticFeats.expandLeft, h, hc, if_true]
        omega
      · simp [CliticFeats.expandLeft, h, hc]

theorem CliticFeats.expandLeft_clitic (np : List Node) :
    ∀ (k j : Nat) (m : Node), CliticFeats.expandLeft np k ≤ j → j < k → np[j]? = some m →
      CliticFeats.is_group_clitic m = true := by
  intro k
  induction k with
  | zero => intro j m _ h _; omega
  | succ p ih =>
    intro j m hle hlt hj
    cases h : np[p]? with
    | none =>
      simp only [CliticFeats.expandLeft, h] at hle
      omega
    | some x =>
      by_cases hc : CliticFeats.is_group_clitic x = true
      · have heq : CliticFeats.expandLeft np (p + 1) = CliticFeats.expandLeft np p := by
          simp [CliticFeats.expandLeft, h, hc]
        rw [heq] at hle
        by_cases hjp : j < p
        · exact ih j m hle hjp hj
        · have : j = p := by omega
          subst this
          rw [h] at hj
          cases hj
          exact hc
      · have heq : CliticFeats.expandLeft np (p + 1) = p + 1 := by
          simp [CliticFeats.expandLeft, h, hc]
        rw [heq] at hle
        omega

theorem CliticFeats.expandRight_ge (np : List Node) :
    ∀ (fuel e : Nat), e ≤ CliticFeats.expandRight np fuel e := by
  intro fuel
  induction fuel with
  | zero => intro e; simp [CliticFeats.expandRight]
  | succ f ih =>
    intro e
    cases h : np[e + 1]? with
    | none => simp [CliticFeats.expandRight, h]
    | some x =>
      by_cases hc : CliticFeats.is_group_clitic x = true
      · have heq : CliticFeats.expandRight np (f + 1) e = CliticFeats.expandRight np f (e + 1) := by
          simp [CliticFeats.expandRight, h, hc]
        rw [heq]
        have := ih (e + 1)
        omega
      · simp [CliticFeats.expandRight, h, hc]

theorem CliticFeats.expandRight_clitic (np : List Node) :
    ∀ (fuel e j : Nat) (m : Node), e < j → j ≤ CliticFeats.expandRight np fuel e →
      np[j]? = some m → CliticFeats.is_group_clitic m = true := by
  intro fuel
  induction fuel with
  | zero =>
    intro e j m hlt hle _
    rw [CliticFeats.expandRight] at hle
    omega
  | succ f ih =>
    intro e j m hlt hle hj
    cases h : np[e + 1]? with
    | none =>
      simp only [CliticFeats.expandRight, h] at hle
      omega
    | some x =>
      by_cases hc : CliticFeats.is_group_clitic x = true
      · have heq : CliticFeats.expandRight np (f + 1) e = CliticFeats.expandRight np f (e + 1) := by
          simp [CliticFeats.expandRight, h, hc]
        rw [heq] at hle
        by_cases hje : e + 1 < j
        · exact ih (e + 1) j m hje hle hj
        · have : j = e + 1 := by omega
          subst this
          rw [h] at hj
          cases hj
          exact hc
      · have heq : CliticFeats.expandRight np (f + 1) e = e := by
          simp [CliticFeats.expandRight, h, hc]
        rw [heq] at hle
        omega

theorem mem_take_drop_of_getElem? {np : List Node} {start stop j : Nat} {m : Node}
    (h1 : start ≤ j) (h2 : j ≤ stop) (h : np[j]? = some m) :
    m ∈ (np.drop start).take (stop + 1 - start) := by
  have hidx : start + (j - start) = j := by omega
  refine List.mem_iff_getElem?.mpr ⟨j - start, ?_⟩
  rw [List.getElem?_take_of_lt (by omega), List.getElem?_drop, hidx]
  exact h

theorem getElem?_of_mem_take_drop {np : List Node} {start stop : Nat} {m : Node}
    (h : m ∈ (np.drop start).take (stop + 1 - start)) :
    ∃ j, start ≤ j ∧ j ≤ stop ∧ np[j]? = some m := by
  obtain ⟨i, hi⟩ := List.mem_iff_getElem?.mp h
  have hlt : i < stop + 1 - start := by
    by_contra hge
    have hlen : ((np.drop start).take (stop + 1 - start)).length ≤ i := by
      have := List.length_take_le (stop + 1 - start) (np.drop start)
      omega
    rw [List.getElem?_eq_none hlen] at hi
    cases hi
  refine ⟨start + i, by omega, by omega, ?_⟩
  rw [List.getElem?_take_of_lt hlt, List.getElem?_drop] at hi
  exact hi

theorem CliticFeats.is_group_clitic_se_adp {m : Node} (h1 : lowerStr m.form = "se")
    (h2 : m.upos = "ADP") : CliticFeats.is_group_clitic m = false := by
  simp +decide [CliticFeats.is_group_clitic, h1, h2]

theorem CliticFeats.clitic_group_eq_slice (s : Sent) (node : Node) (pred : Option Node)
    (idx : Nat)
    (hfind : ((CliticFeats.clause_nodes s pred).filter (fun n => n.upos != "PUNCT")).findIdx?
        (fun n => n.id == node.id) = some idx) :
    CliticFeats.clitic_group s node pred
      = (((CliticFeats.clause_nodes s pred).filter (fun n => n.upos != "PUNCT")).drop
            (CliticFeats.expandLeft
              ((CliticFeats.clause_nodes s pred).filter (fun n => n.upos != "PUNCT")) idx)).take
          (CliticFeats.expandRight
              ((CliticFeats.clause_nodes s pred).filter (fun n => n.upos != "PUNCT"))
              ((CliticFeats.clause_nodes s pred).filter (fun n => n.upos != "PUNCT")).length idx
            + 1
            - CliticFeats.expandLeft
              ((CliticFeats.clause_nodes s pred).filter (fun n => n.upos != "PUNCT")) idx) := by
  have hnpne : (CliticFeats.clause_nodes s pred).filter (fun n => n.upos != "PUNCT") ≠ [] := by
    intro hnil
    rw [hnil] at hfind
    cases hfind
  have hcne : CliticFeats.clause_nodes s pred ≠ [] := by
    intro h
    exact hnpne (by rw [h]; rfl)
  have hie : (CliticFeats.clause_nodes s pred).isEmpty = false := by
    simpa [List.isEmpty_iff] using hcne
  simp only [CliticFeats.clitic_group, hie, Bool.false_eq_true, if_false, hfind]

/-- C4: in the clause's ord-sorted non-punctuation sequence `np`, with the
target clitic found at `idx`: a neighbouring clitic-form token on either
side lands in the clitic group (and since `np` is the punctuation-filtered
sequence, a PUNCT token standing between two clitic forms in the raw clause
sequence does not break the group); a non-clitic content word to the right
stops the group at `idx`; every group member other than the target is a
clitic form, so an adjacent "se" tagged ADP is never included. -/
theorem c4_clitic_group_contiguity (s : Sent) (node : Node) (pred : Option Node)
    (np : List Node)
    (hnp : np = (CliticFeats.clause_nodes s pred).filter (fun n => n.upos != "PUNCT"))
    (idx : Nat)
    (hfind : np.findIdx? (fun n => n.id == node.id) = some idx) :
    (∀ m : Node, 0 < idx → np[idx - 1]? = some m → CliticFeats.is_group_clitic m = true →
      m ∈ CliticFeats.clitic_group s node pred) ∧
    (∀ m : Node, np[idx + 1]? = some m → CliticFeats.is_group_clitic m = true →
      m ∈ CliticFeats.clitic_group s node pred) ∧
    ((∀ m : Node, np[idx + 1]? = some m → CliticFeats.is_group_clitic m = false) →
      ∀ m : Node, m ∈ CliticFeats.clitic_group s node pred → ∃ j, j ≤ idx ∧ np[j]? = some m) ∧
    (∀ m : Node, m ∈ CliticFeats.clitic_group s node pred →
      m.id = node.id ∨ CliticFeats.is_group_clitic m = true) ∧
    (∀ m : Node, m ∈ CliticFeats.clitic_group s node pred →
      lowerStr m.form = "se" → m.upos = "ADP" → m.id = node.id) ∧
    ((np.map (fun n => n.id)).Nodup →
      ∀ l1 l2 : List Node, ∀ pt c : Node,
        CliticFeats.clause_nodes s pred = l1 ++ node :: pt :: c :: l2 →
        (node.upos != "PUNCT") = true → pt.upos = "PUNCT" → (c.upos != "PUNCT") = true →
        CliticFeats.is_group_clitic c = true →
        c ∈ CliticFeats.clitic_group s node pred) := by
  subst hnp
  have hslice := CliticFeats.clitic_group_eq_slice s node pred idx hfind
  obtain ⟨hlt, hpidx, hmin⟩ := List.findIdx?_eq_some_iff_getElem.mp hfind
  have hstart := CliticFeats.expandLeft_le
    ((CliticFeats.clause_nodes s pred).filter (fun n => n.upos != "PUNCT")) idx
  have hstop := CliticFeats.expandRight_ge
    ((CliticFeats.clause_nodes s pred).filter (fun n => n.upos != "PUNCT"))
    ((CliticFeats.clause_nodes s pred).filter (fun n => n.upos != "PUNCT")).length idx
  obtain ⟨f, hf⟩ : ∃ f,
      ((CliticFeats.clause_nodes s pred).filter (fun n => n.upos != "PUNCT")).length = f + 1 :=
    ⟨((CliticFeats.clause_nodes s pred).filter (fun n => n.upos != "PUNCT")).length - 1,
      by omega⟩
  have hB : ∀ m : Node,
      ((CliticFeats.clause_nodes s pred).filter (fun n => n.upos != "PUNCT"))[idx + 1]? = some m →
      CliticFeats.is_group_clitic m = true → m ∈ CliticFeats.clitic_group s node pred := by
    intro m hm hc
    rw [hslice]
    have heq : CliticFeats.expandRight
          ((CliticFeats.clause_nodes s pred).filter (fun n => n.upos != "PUNCT")) (f + 1) idx
        = CliticFeats.expandRight
          ((CliticFeats.clause_nodes s pred).filter (fun n => n.upos != "PUNCT")) f (idx + 1) := by
      simp [CliticFeats.expandRight, hm, hc]
    refine mem_take_drop_of_getElem? (by omega) ?_ hm
    rw [hf, heq]
    exact CliticFeats.expandRight_ge _ f (idx + 1)
  refine ⟨?_, hB, ?_, ?_, ?_, ?_⟩
  · -- left neighbour
    intro m h0 hm hc
    rw [hslice]
    obtain ⟨k, hk⟩ : ∃ k, idx = k + 1 := ⟨idx - 1, by omega⟩
    subst hk
    simp only [Nat.add_sub_cancel] at hm
    have heq : CliticFeats.expandLeft
          ((CliticFeats.clause_nodes s pred).filter (fun n => n.upos != "PUNCT")) (k + 1)
        = CliticFeats.expandLeft
          ((CliticFeats.clause_nodes s pred).filter (fun n => n.upos != "PUNCT")) k := by
      simp [CliticFeats.expandLeft, hm, hc]
    have hlek := CliticFeats.expandLeft_le
      ((CliticFeats.clause_nodes s pred).filter (fun n => n.upos != "PUNCT")) k
    refine mem_take_drop_of_getElem? ?_ (by omega) hm
    rw [heq]
    omega
  · -- content word on the right stops the group at idx
    intro hstopclit m hmem
    rw [hslice] at hmem
    have hstopidx : CliticFeats.expandRight
        ((CliticFeats.clause_nodes s pred).filter (fun n => n.upos != "PUNCT"))
        ((CliticFeats.clause_nodes s pred).filter (fun n => n.upos != "PUNCT")).length idx
        = idx := by
      rw [hf]
      cases hx : ((CliticFeats.clause_nodes s pred).filter (fun n => n.upos != "PUNCT"))[idx + 1]? with
      | none => simp [CliticFeats.expandRight, hx]
      | some x => simp [CliticFeats.expandRight, hx, hstopclit x hx]
    rw [hstopidx] at hmem
    obtain ⟨j, hj1, hj2, hj⟩ := getElem?_of_mem_take_drop hmem
    exact ⟨j, hj2, hj⟩
  · -- every member is the target or a clitic form
    intro m hmem
    rw [hslice] at hmem
    obtain ⟨j, hj1, hj2, hj⟩ := getElem?_of_mem_take_drop hmem
    by_cases hji : j < idx
    · right
      exact CliticFeats.expandLeft_clitic _ idx j m hj1 hji hj
    · by_cases hji2 : j = idx
      · left
        subst hji2
        rw [List.getElem?_eq_getElem hlt] at hj
        cases hj
        simpa using hpidx
      · right
        exact CliticFeats.expandRight_clitic _ _ idx j m (by omega) hj2 hj
  · -- an ADP "se" member can only be the target itself
    intro m hmem h1 h2
    have hd : m.id = node.id ∨ CliticFeats.is_group_clitic m = true := by
      rw [hslice] at hmem
      obtain ⟨j, hj1, hj2, hj⟩ := getElem?_of_mem_take_drop hmem
      by_cases hji : j < idx
      · exact Or.inr (CliticFeats.expandLeft_clitic _ idx j m hj1 hji hj)
      · by_cases hji2 : j = idx
        · left
          subst hji2
          rw [List.getElem?_eq_getElem hlt] at hj
          cases hj
          simpa using hpidx
        · exact Or.inr (CliticFeats.expandRight_clitic _ _ idx j m (by omega) hj2 hj)
    rcases hd with h | h
    · exact h
    · rw [CliticFeats.is_group_clitic_se_adp h1 h2] at h
      cases h
  · -- punctuation between two clitic forms does not break the group
    intro hnd l1 l2 pt c hdec hnodeP hptP hcP hc
    have hfilter : (CliticFeats.clause_nodes s pred).filter (fun n => n.upos != "PUNCT")
        = l1.filter (fun n => n.upos != "PUNCT") ++ node :: c :: l2.filter (fun n => n.upos != "PUNCT") := by
      rw [hdec]
      simp +decide [List.filter_append, List.filter_cons, hnodeP, hptP, hcP]
    have hidx : idx = (l1.filter (fun n => n.upos != "PUNCT")).length := by
      have hnode : ((CliticFeats.clause_nodes s pred).filter
          (fun n => n.upos != "PUNCT"))[(l1.filter (fun n => n.upos != "PUNCT")).length]?
          = some node := by
        rw [hfilter, List.getElem?_append_right (Nat.le_refl _)]
        simp
      have hmapA : (((CliticFeats.clause_nodes s pred).filter (fun n => n.upos != "PUNCT")).map
          (fun n => n.id))[(l1.filter (fun n => n.upos != "PUNCT")).length]? = some node.id := by
        rw [List.getElem?_map, hnode]
        rfl
      have hmapI : (((CliticFeats.clause_nodes s pred).filter (fun n => n.upos != "PUNCT")).map
          (fun n => n.id))[idx]? = some node.id := by
        have hideq : ((CliticFeats.clause_nodes s pred).filter
            (fun n => n.upos != "PUNCT"))[idx].id = node.id := by
          simpa using hpidx
        rw [List.getElem?_map, List.getElem?_eq_getElem hlt]
        simp [hideq]
      have hlen : idx < (((CliticFeats.clause_nodes s pred).filter
          (fun n => n.upos != "PUNCT")).map (fun n => n.id)).length := by
        rw [List.length_map]
        exact hlt
      exact List.getElem?_inj hlen hnd (hmapI.trans hmapA.symm)
    refine hB c ?_ hc
    rw [hidx, hfilter, List.getElem?_append_right (by omega)]
    simp

/-- C4 witness: in sentence C the punctuation between "se" and "ho" is
filtered out, so "ho" joins the group, and every member is the target or a
clitic form. -/
theorem c4_witness_punct_and_group :
    Fix.hoC ∈ CliticFeats.clitic_group Fix.sentC Fix.seC (some Fix.predC) ∧
    (∀ m : Node, m ∈ CliticFeats.clitic_group Fix.sentC Fix.seC (some Fix.predC) →
      m.id = Fix.seC.id ∨ CliticFeats.is_group_clitic m = true) :=
  have h := c4_clitic_group_contiguity Fix.sentC Fix.seC (some Fix.predC)
    ((CliticFeats.clause_nodes Fix.sentC (some Fix.predC)).filter (fun n => n.upos != "PUNCT"))
    rfl 1 (by decide)
  ⟨h.2.1 Fix.hoC (by decide) (by decide), h.2.2.2.1⟩

/-! ## Claim C7: predicate_form is strictly ord-increasing -/

theorem filterMap_node?_map_id_sublist (s : Sent) :
    ∀ ids : List Nat, List.Sublist ((ids.filterMap s.node?).map (fun c => c.id)) ids := by
  intro ids
  induction ids with
  | nil => simp
  | cons i t ih =>
    rw [List.filterMap_cons]
    cases h : s.node? i with
    | none => exact ih.cons i
    | some c =>
      rw [List.map_cons, Sent.node?_id h]
      exact ih.cons₂ i

theorem CliticFeats.auxCopChildren_map_id_sublist (s : Sent) (n : Node) :
    List.Sublist ((CliticFeats.auxCopChildren s n).map (fun c => c.id)) n.childIds := by
  have h1 : List.Sublist (CliticFeats.auxCopChildren s n) (s.childrenOf n) :=
    List.filter_sublist _
  exact List.Sublist.trans (h1.map (fun c => c.id)) (filterMap_node?_map_id_sublist s n.childIds)

theorem CliticFeats.auxCopChildren_ids_nodup {s : Sent} {n : Node}
    (hchild : n.childIds.Nodup) :
    ((CliticFeats.auxCopChildren s n).map (fun c => c.id)).Nodup :=
  List.Nodup.sublist (CliticFeats.auxCopChildren_map_id_sublist s n) hchild

theorem CliticFeats.auxCopChildren_parent {s : Sent} {n c : Node}
    (hcons : ∀ m ∈ s.nodes, ∀ d ∈ s.childrenOf m, s.parentOf d = some m)
    (hn : n ∈ s.nodes) (hc : c ∈ CliticFeats.auxCopChildren s n) :
    s.parentOf c = some n :=
  hcons n hn c (CliticFeats.auxCopChildren_sub hc)

theorem CliticFeats.auxCopChildren_base {s : Sent} {n c : Node}
    (hc : c ∈ CliticFeats.auxCopChildren s n) :
    (baseDeprel c.deprel == "aux" || baseDeprel c.deprel == "cop") = true :=
  (List.mem_filter.mp hc).2

theorem CliticFeats.partsLoop_nodup {s : Sent} (rank : Nat → Nat)
    (hids : (s.nodes.map (fun n => n.id)).Nodup)
    (hchild : ∀ n ∈ s.nodes, n.childIds.Nodup)
    (hcons : ∀ n ∈ s.nodes, ∀ c ∈ s.childrenOf n, s.parentOf c = some n)
    (hrank : ∀ n ∈ s.nodes, ∀ q ∈ s.nodes, s.parentOf n = some q → rank n.id < rank q.id) :
    ∀ (fuel : Nat) (visited : List Nat) (parts : List Node) (node : Node)
      (result : List Node),
      CliticFeats.partsLoop s fuel visited parts node = some result →
      node ∈ s.nodes → visited.contains node.id = true →
      (∀ x ∈ parts, x ∈ s.nodes) →
      (parts.map (fun n => n.id)).Nodup →
      (∀ x ∈ parts, rank x.id ≤ rank node.id) →
      (∀ x ∈ parts, x.id = node.id ∨
        ∃ v : Node, s.parentOf x = some v ∧ visited.contains v.id = true) →
      (∀ i ∈ visited, rank i ≤ rank node.id) →
      (result.map (fun n => n.id)).Nodup ∧ ∀ x ∈ result, x ∈ s.nodes := by
  intro fuel
  induction fuel with
  | zero => intro _ _ _ _ h; cases h
  | succ f ih =>
    intro visited parts node result hres hnode hnv hP1 hP2 hP3 hP4 hV
    rw [CliticFeats.partsLoop] at hres
    by_cases hb : baseDeprel node.deprel ≠ "xcomp"
    · rw [if_pos hb] at hres
      cases hres
      exact ⟨hP2, hP1⟩
    · rw [if_neg hb] at hres
      push_neg at hb
      cases hp : s.parentOf node with
      | none =>
        rw [hp] at hres
        cases hres
        exact ⟨hP2, hP1⟩
      | some head =>
        rw [hp] at hres
        simp only [] at hres
        by_cases hhr : head.isRoot = true
        · rw [if_pos hhr] at hres
          cases hres
          exact ⟨hP2, hP1⟩
        · rw [if_neg hhr] at hres
          by_cases hhv : visited.contains head.id = true
          · rw [if_pos hhv] at hres
            cases hres
            exact ⟨hP2, hP1⟩
          · rw [if_neg hhv] at hres
            have hheadmem : head ∈ s.nodes := Sent.parentOf_mem hp
            have hrankh : rank node.id < rank head.id := hrank node hnode head hheadmem hp
            have hAparent : ∀ c ∈ CliticFeats.auxCopChildren s head, s.parentOf c = some head :=
              fun c hc => CliticFeats.auxCopChildren_parent hcons hheadmem hc
            have hArank : ∀ c ∈ CliticFeats.auxCopChildren s head, rank c.id < rank head.id :=
              fun c hc => hrank c (CliticFeats.auxCopChildren_mem hc) head hheadmem (hAparent c hc)
            have hAmem : ∀ c ∈ CliticFeats.auxCopChildren s head, c ∈ s.nodes :=
              fun c hc => CliticFeats.auxCopChildren_mem hc
            refine ih (head.id :: visited) (parts ++ head :: CliticFeats.auxCopChildren s head)
              head result hres hheadmem (by simp) ?_ ?_ ?_ ?_ ?_
            · intro x hx
              rcases List.mem_append.mp hx with h | h
              · exact hP1 x h
              · rcases List.mem_cons.mp h with h | h
                · subst h; exact hheadmem
                · exact hAmem x h
            · rw [List.map_append, List.map_cons]
              rw [List.nodup_append]
              refine ⟨hP2, ?_, ?_⟩
              · rw [List.nodup_cons]
                constructor
                · intro hmemA
                  obtain ⟨c, hc, hcid⟩ := List.mem_map.mp hmemA
                  have hlt := hArank c hc
                  rw [hcid] at hlt
                  omega
                · exact CliticFeats.auxCopChildren_ids_nodup (hchild head hheadmem)
              · intro a ha
                obtain ⟨x, hx, hxid⟩ := List.mem_map.mp ha
                subst hxid
                intro hmem
                rcases List.mem_cons.mp hmem with heq | hmemA
                · have h3 := hP3 x hx
                  rw [heq] at h3
                  omega
                · obtain ⟨c, hc, hcid⟩ := List.mem_map.mp hmemA
                  have hxc : c = x := List.inj_on_of_nodup_map hids
                    (hAmem c hc) (hP1 x hx) hcid
                  subst hxc
                  rcases hP4 c hx with h | ⟨v, hv1, hv2⟩
                  · have hcn : c = node := List.inj_on_of_nodup_map hids
                      (hAmem c hc) hnode h
                    subst hcn
                    have hbase := CliticFeats.auxCopChildren_base hc
                    rw [hb] at hbase
                    exact absurd hbase (by decide)
                  · rw [hAparent c hc] at hv1
                    cases hv1
                    exact absurd hv2 hhv
            · intro x hx
              rcases List.mem_append.mp hx with h | h
              · have := hP3 x h
                omega
              · rcases List.mem_cons.mp h with h | h
                · subst h; omega
                · have := hArank x h
                  omega
            · intro x hx
              rcases List.mem_append.mp hx with h | h
              · rcases hP4 x h with h2 | ⟨v, hv1, hv2⟩
                · right
                  refine ⟨head, ?_, by simp⟩
                  have hxn : x = node := List.inj_on_of_nodup_map hids
                    (hP1 x h) hnode h2
                  subst hxn
                  exact hp
                · exact Or.inr ⟨v, hv1, by
                    simp only [List.contains_cons, hv2, Bool.or_true]⟩
              · rcases List.mem_cons.mp h with h | h
                · subst h; left; rfl
                · exact Or.inr ⟨head, hAparent x h, by simp⟩
            · intro i hi
              rcases List.mem_cons.mp hi with h | h
              · subst h; omega
              · have := hV i h
                omega

/-- C7: on a well-formed sentence (consistent parent/child links, acyclic
parents as witnessed by a rank, unique ids, and unique strictly increasing
ord values), the complex-predicate members are pairwise distinct and the
emitted `predicate_form` joins their forms in strictly ord-increasing
order; the governor being absent or virtual-root yields the placeholder. -/
theorem c7_predicate_form_ord_increasing (s : Sent) (p : Node) (rank : Nat → Nat)
    (hmem : p ∈ s.nodes) (hroot : p.isRoot = false)
    (hord : s.nodes.Pairwise (fun a b => a.ord < b.ord))
    (hids : (s.nodes.map (fun n => n.id)).Nodup)
    (hchild : ∀ n ∈ s.nodes, n.childIds.Nodup)
    (hcons : ∀ n ∈ s.nodes, ∀ c ∈ s.childrenOf n, s.parentOf c = some n)
    (hrank : ∀ n ∈ s.nodes, ∀ q ∈ s.nodes, s.parentOf n = some q → rank n.id < rank q.id) :
    ((CliticFeats.predicate_nodes s (some p)).map (fun n => n.id)).Nodup ∧
    (CliticFeats.predicate_nodes s (some p)).Pairwise (fun a b => a.ord < b.ord) ∧
    CliticFeats.predicate_form s (some p)
      = String.intercalate " " ((CliticFeats.predicate_nodes s (some p)).map (fun n => n.form)) ∧
    CliticFeats.predicate_form s none = "_" ∧
    (∀ r : Node, r.isRoot = true → CliticFeats.predicate_form s (some r) = "_") := by
  obtain ⟨parts, hparts⟩ := Option.isSome_iff_exists.mp (CliticFeats.predicateParts_isSome s p)
  have hploop : CliticFeats.partsLoop s (stdFuel s) [p.id]
      (p :: CliticFeats.auxCopChildren s p) p = some parts := hparts
  have hA0mem : ∀ c ∈ CliticFeats.auxCopChildren s p, c ∈ s.nodes :=
    fun c hc => CliticFeats.auxCopChildren_mem hc
  have hA0par : ∀ c ∈ CliticFeats.auxCopChildren s p, s.parentOf c = some p :=
    fun c hc => CliticFeats.auxCopChildren_parent hcons hmem hc
  have hA0rank : ∀ c ∈ CliticFeats.auxCopChildren s p, rank c.id < rank p.id :=
    fun c hc => hrank c (hA0mem c hc) p hmem (hA0par c hc)
  have hinv : (parts.map (fun n => n.id)).Nodup ∧ ∀ x ∈ parts, x ∈ s.nodes := by
    refine CliticFeats.partsLoop_nodup rank hids hchild hcons hrank (stdFuel s) [p.id]
      (p :: CliticFeats.auxCopChildren s p) p parts hploop hmem (by simp) ?_ ?_ ?_ ?_ ?_
    · intro x hx
      rcases List.mem_cons.mp hx with h | h
      · subst h; exact hmem
      · exact hA0mem x h
    · rw [List.map_cons, List.nodup_cons]
      constructor
      · intro hmemA
        obtain ⟨c, hc, hcid⟩ := List.mem_map.mp hmemA
        have hlt := hA0rank c hc
        rw [hcid] at hlt
        omega
      · exact CliticFeats.auxCopChildren_ids_nodup (hchild p hmem)
    · intro x hx
      rcases List.mem_cons.mp hx with h | h
      · subst h; omega
      · have := hA0rank x h
        omega
    · intro x hx
      rcases List.mem_cons.mp hx with h | h
      · subst h; left; rfl
      · exact Or.inr ⟨p, hA0par x h, by simp⟩
    · intro i hi
      rcases List.mem_cons.mp hi with h | h
      · subst h; omega
      · cases h
  have hpn : CliticFeats.predicate_nodes s (some p) = sortByOrd parts := by
    simp [CliticFeats.predicate_nodes, hroot, hparts]
  have hperm : List.Perm (sortByOrd parts) parts := List.perm_insertionSort ordLE parts
  have hpermid : List.Perm ((sortByOrd parts).map (fun n => n.id))
      (parts.map (fun n => n.id)) := hperm.map _
  have hnodupid : ((sortByOrd parts).map (fun n => n.id)).Nodup :=
    (List.Perm.nodup_iff hpermid).mpr hinv.1
  refine ⟨by rw [hpn]; exact hnodupid, ?_, ?_, rfl, ?_⟩
  · have hsorted : List.Sorted ordLE (sortByOrd parts) := List.sorted_insertionSort ordLE parts
    have hsub : ∀ x ∈ sortByOrd parts, x ∈ s.nodes :=
      fun x hx => hinv.2 x (hperm.mem_iff.mp hx)
    have hnodupS : (sortByOrd parts).Nodup := by
      have h2 := hnodupid
      exact h2.of_map
    have hordinj : ∀ a ∈ s.nodes, ∀ b ∈ s.nodes, a ≠ b → a.ord ≠ b.ord := by
      have h1 : s.nodes.Pairwise (fun a b => a.ord ≠ b.ord) :=
        hord.imp (fun h => Nat.ne_of_lt h)
      exact fun a ha b hb hne2 =>
        List.Pairwise.forall (fun {x y} h => h.symm) h1 ha hb hne2
    rw [hpn]
    have hcomb := List.Pairwise.and hsorted hnodupS
    exact List.Pairwise.imp_of_mem
      (fun {a b} ha hb hr =>
        lt_of_le_of_ne hr.1 (hordinj a (hsub a ha) b (hsub b hb) hr.2)) hcomb
  · simp [CliticFeats.predicate_form, CliticFeats.predicate_nodes, hroot, hparts]
  · intro r hr
    simp [CliticFeats.predicate_form, hr]

/-- C7 witness: the three-verb chain of sentence D, with the rank
certifying parent acyclicity, yields pairwise-distinct, strictly
ord-increasing predicate members. -/
theorem c7_witness_sentD :
    ((CliticFeats.predicate_nodes Fix.sentD (some Fix.v3D)).map (fun n => n.id)).Nodup ∧
    (CliticFeats.predicate_nodes Fix.sentD (some Fix.v3D)).Pairwise (fun a b => a.ord < b.ord) :=
  have h := c7_predicate_form_ord_increasing Fix.sentD Fix.v3D Fix.rankD
    (by decide) (by decide) (by decide) (by decide) (by decide) (by decide) (by decide)
  ⟨h.1, h.2.1⟩
